import Mathlib

/-!
Verification of `src/libs/zbxdbcache/nextchecks.c`: the deferred-write
coalescing buffer of pending check failures (`DCadd_nextcheck`,
`DCclean_nextchecks`) and its flush pipeline (`DCflush_nextchecks`).

The C module keeps a process-wide sorted array `nextchecks` of
`ZBX_DC_NEXTCHECK` entries together with the counters `nextcheck_alloc`
and `nextcheck_num`.  We embed the array as a Lean list holding exactly
the first `nextcheck_num` entries, so `nextcheck_num` is the length of
the list, and keep `nextcheck_alloc` explicitly.  Machine integers:
`zbx_uint64_t itemid` is modelled as `Nat` (only compared, never
overflowed), `time_t now` as `Int`, `char *error_msg` as
`Option String` at the call boundary (`none` models a NULL pointer) and
as `String` inside the buffer (the buffer only ever stores a
`zbx_strdup` of a non-NULL argument).
-/

/-- One `ZBX_DC_NEXTCHECK` entry of the buffer (nextchecks.c lines 26-32). -/
structure NextCheck where
  itemid : Nat
  now : Int
  error_msg : String
deriving DecidableEq

/-- The module-level mutable state: the `nextchecks` array contents
(`nextcheck_num` entries, as a list) and the `nextcheck_alloc` capacity
counter (nextchecks.c lines 34-36). -/
structure DCState where
  nextchecks : List NextCheck
  nextcheck_alloc : Nat
deriving DecidableEq

/-- The initial module state: `nextchecks = NULL`, `nextcheck_alloc = 0`,
`nextcheck_num = 0`. -/
def initialDCState : DCState := ⟨[], 0⟩

/-- Modelled from the spec: `get_nearestindex` (the binary-search helper
called at nextchecks.c line 81) is repository code that is not under
`src/`.  Per the spec it locates the insertion point via binary search
over `checkID` in a buffer kept sorted by `checkID` ascending, returning
the index of the matching entry when one exists.  On a sorted buffer
that index is the number of leading entries whose key is strictly below
the searched key, which is how we define it here. -/
def get_nearestindex (l : List NextCheck) (itemid : Nat) : Nat :=
  (l.takeWhile (fun r => decide (r.itemid < itemid))).length

/-- Embedding of `DCadd_nextcheck` (nextchecks.c lines 70-112).

The first component is the updated module state.  The second component
collects the arguments of every `zbx_free` call the function performs on
a stored message: the C body contains none, so it is `[]` on every path
(in particular the replace branch at lines 85-91 `memmove`s the matching
entry away without freeing its `error_msg`).

Path by path: a NULL `error_msg` returns immediately (line 78); the
nearest index `i` is computed (line 81); if the entry at `i` exists and
matches, a strictly older entry is deleted by `memmove` (lines 85-91,
the `afterDelete` list) and a same-or-newer one makes the call return
(line 93, modelled by `afterDelete = none`); a full buffer grows
`nextcheck_alloc` by 64 (lines 96-100, a pure counter here since the
list needs no reallocation); finally the new entry is inserted at `i`
by shifting the tail (lines 103-109). -/
def DCadd_nextcheck (st : DCState) (itemid : Nat) (now : Int) (error_msg : Option String) :
    DCState × List String :=
  match error_msg with
  | none => (st, [])
  | some msg =>
    let i := get_nearestindex st.nextchecks itemid
    let afterDelete : Option (List NextCheck) :=
      if hi : i < st.nextchecks.length then
        if (st.nextchecks.get ⟨i, hi⟩).itemid = itemid then
          if (st.nextchecks.get ⟨i, hi⟩).now < now then
            some (st.nextchecks.take i ++ st.nextchecks.drop (i + 1))
          else none
        else some st.nextchecks
      else some st.nextchecks
    match afterDelete with
    | none => (st, [])
    | some buf =>
      let alloc :=
        if st.nextcheck_alloc = buf.length then st.nextcheck_alloc + 64
        else st.nextcheck_alloc
      (⟨buf.take i ++ ⟨itemid, now, msg⟩ :: buf.drop i, alloc⟩, [])

/-- One resolved trigger as consumed by the flush loop (nextchecks.c
lines 173-188).  `DBget_trigger_update_sql` is external repository code:
its outcome for a trigger is abstracted into `sql_ok` (did it return
SUCCEED) and `update_sql` (the statement it appended on success); the
descriptive fields it reads (description, expression, priority, ...) are
only passed through and are not modelled.  `new_error` is the computed
error annotation the loop frees (line 187), `none` modelling NULL. -/
structure DC_TRIGGER where
  triggerid : Nat
  sql_ok : Bool
  update_sql : String
  new_error : Option String
deriving DecidableEq

/-- Observable actions of one `DCflush_nextchecks` call, in program
order: the resolver call (`DCconfig_get_triggers_by_itemids`, line 156),
a statement appended to the batch (successful
`DBget_trigger_update_sql`, lines 177-185), the release of a resolved
trigger's computed error annotation (line 187), the batch submission
(`DBexecute`, line 195, carrying the submission outcome), and the
release of one drained entry's `error_msg` (`DCclean_nextchecks`,
line 54). -/
inductive FlushEvent where
  | resolve (itemids : List Nat) (secs : List Int) (errors : List String)
  | appendStmt (stmt : String)
  | freeNewError (e : Option String)
  | execute (sql : List String) (ok : Bool)
  | freeErrorMsg (msg : String)
deriving DecidableEq

/-- Embedding of `DCclean_nextchecks` (nextchecks.c lines 45-59): frees
every stored `error_msg` and resets `nextcheck_num` to zero, keeping the
allocation.  The second component is the trace of frees, in order. -/
def DCclean_nextchecks (st : DCState) : DCState × List FlushEvent :=
  (⟨[], st.nextcheck_alloc⟩,
   st.nextchecks.map (fun c => FlushEvent.freeErrorMsg c.error_msg))

/-- Trace of the per-trigger loop of `DCflush_nextchecks` (lines
173-188): for each resolved trigger in resolver order, a statement is
appended when `DBget_trigger_update_sql` succeeds, and the trigger's
`new_error` is freed unconditionally afterwards. -/
def triggerLoopEvents : List DC_TRIGGER → List FlushEvent
  | [] => []
  | t :: ts =>
      (if t.sql_ok then [FlushEvent.appendStmt t.update_sql] else [])
        ++ FlushEvent.freeNewError t.new_error :: triggerLoopEvents ts

/-- The statements accumulated into the batch by the loop: one per
trigger for which `DBget_trigger_update_sql` succeeded, in resolver
order. -/
def batchStatements (ts : List DC_TRIGGER) : List String :=
  (ts.filter (fun t => t.sql_ok)).map (fun t => t.update_sql)

/-- Embedding of `DCflush_nextchecks` (nextchecks.c lines 123-206).

External collaborators are parameters: `resolver` is
`DCconfig_get_triggers_by_itemids` (line 156, repository code outside
`src/`, taken as an arbitrary function of the three index-aligned
arrays), and `dbexec` is the `DBexecute` submission outcome (its result
is ignored by the C code and only recorded in the trace).

Modelled from the spec: the `sql_offset > 16` submission guard
(line 194) together with the `DBbegin_multiple_update` /
`DBend_multiple_update` boilerplate is repository code outside `src/`;
per the spec it is treated abstractly as "submit the batch if and only
if at least one real statement was appended".  Statement-limit overflow
chunking (`DBexecute_overflowed_sql`, line 184) is the store's concern
per the spec and is folded into the single batch submission.  The
`trigger_info` hashset and `trigger_order` vector bookkeeping
(create/reserve/destroy, `DCfree_triggers`) has no observable effect on
the modelled state and trace.

Control flow: an empty buffer returns at once (lines 136-137); the
three parallel arrays are filled from the buffer (lines 139-148) and
passed to the resolver; if the resolver returned at least one trigger
the batch loop runs and a non-empty batch is executed (lines 162-198);
finally `DCclean_nextchecks` frees the drained messages and empties the
buffer (line 203). -/
def DCflush_nextchecks (resolver : List Nat → List Int → List String → List DC_TRIGGER)
    (dbexec : List String → Bool) (st : DCState) : DCState × List FlushEvent :=
  if st.nextchecks.length = 0 then (st, [])
  else
    let itemids := st.nextchecks.map (fun c => c.itemid)
    let secs := st.nextchecks.map (fun c => c.now)
    let errors := st.nextchecks.map (fun c => c.error_msg)
    let trigger_order := resolver itemids secs errors
    let sqlEvents :=
      if trigger_order.length ≠ 0 then
        let sql := batchStatements trigger_order
        triggerLoopEvents trigger_order
          ++ (if sql.length ≠ 0 then [FlushEvent.execute sql (dbexec sql)] else [])
      else []
    let cleaned := DCclean_nextchecks st
    (cleaned.1, FlushEvent.resolve itemids secs errors :: (sqlEvents ++ cleaned.2))

/-- Recognizes the release of a drained record's message. -/
def FlushEvent.isFreeErrorMsg : FlushEvent → Bool
  | .freeErrorMsg _ => true
  | _ => false

/-- Recognizes a batch submission. -/
def FlushEvent.isExecute : FlushEvent → Bool
  | .execute _ _ => true
  | _ => false

/-- Recognizes a resolver call. -/
def FlushEvent.isResolve : FlushEvent → Bool
  | .resolve _ _ _ => true
  | _ => false

/-- The drained error messages freed during a trace, in order. -/
def freedErrorMsgs (evs : List FlushEvent) : List String :=
  evs.filterMap (fun e =>
    match e with
    | FlushEvent.freeErrorMsg m => some m
    | _ => none)

/-- The batches submitted to the store during a trace, in order. -/
def executedBatches (evs : List FlushEvent) : List (List String) :=
  evs.filterMap (fun e =>
    match e with
    | FlushEvent.execute sql _ => some sql
    | _ => none)

/-- Fails exactly when some drained-message release happens after a
batch submission: the property a trace would satisfy if all drained
error messages were freed before the batch is submitted. -/
def errorFreesBeforeExecutes : List FlushEvent → Bool
  | [] => true
  | e :: rest =>
      (if e.isExecute then rest.all (fun x => !x.isFreeErrorMsg) else true)
        && errorFreesBeforeExecutes rest

/-- The buffer invariant: entries strictly ascending by `itemid`, which
also forces at most one entry per `itemid`. -/
def SortedByItemid (l : List NextCheck) : Prop :=
  l.Pairwise (fun a b => a.itemid < b.itemid)

/-- States reachable from the initial module state by any sequence of
`DCadd_nextcheck` and `DCflush_nextchecks` calls. -/
inductive Reachable : DCState → Prop
  | init : Reachable initialDCState
  | add (st : DCState) (itemid : Nat) (now : Int) (msg : Option String) :
      Reachable st → Reachable (DCadd_nextcheck st itemid now msg).1
  | flush (st : DCState) (resolver : List Nat → List Int → List String → List DC_TRIGGER)
      (dbexec : List String → Bool) :
      Reachable st → Reachable (DCflush_nextchecks resolver dbexec st).1

/-- A buffer of `n` entries with itemids `0, ..., n-1`, used to exercise
the growth path on concrete full buffers. -/
def rangeBuf (n : Nat) : List NextCheck :=
  (List.range n).map (fun k => ⟨k, 0, "e"⟩)

/-- The trigger list the resolver returns for the three index-aligned
arrays drained from the buffer (the `trigger_order` vector filled by
`DCconfig_get_triggers_by_itemids` at nextchecks.c line 156). -/
def resolvedTriggers (resolver : List Nat → List Int → List String → List DC_TRIGGER)
    (st : DCState) : List DC_TRIGGER :=
  resolver (st.nextchecks.map (fun c => c.itemid)) (st.nextchecks.map (fun c => c.now))
    (st.nextchecks.map (fun c => c.error_msg))

/-- A concrete buffer state holding one pending failure record. -/
def oneRecordState : DCState := ⟨[⟨1, 5, "a"⟩], 64⟩

/-- A concrete resolver returning a single trigger whose statement
build succeeds. -/
def oneTriggerResolver : List Nat → List Int → List String → List DC_TRIGGER :=
  fun _ _ _ => [⟨10, true, "u", none⟩]

/-- A concrete resolver returning two triggers, of which only the first
builds a statement (the second is a no-op update). -/
def twoTriggerResolver : List Nat → List Int → List String → List DC_TRIGGER :=
  fun _ _ _ => [⟨10, true, "u10", some "x"⟩, ⟨11, false, "u11", none⟩]

/-! General list lemmas used to reason about the `memmove` shifts of
`DCadd_nextcheck`, which the embedding expresses with `take`, `drop` and
`get` around the insertion index. -/

theorem append_take_len {α : Type} (A B : List α) : (A ++ B).take A.length = A :=
  List.take_left A B

theorem append_drop_len {α : Type} (A B : List α) : (A ++ B).drop A.length = B :=
  List.drop_left A B

theorem append_get_len {α : Type} (A : List α) (d : α) (B : List α)
    (h : A.length < (A ++ d :: B).length) :
    (A ++ d :: B).get ⟨A.length, h⟩ = d := by
  have h2 := @List.getElem_append_right _ A (d :: B) A.length le_rfl h
  simpa using h2

theorem append_drop_len_succ {α : Type} (A : List α) (d : α) (B : List α) :
    (A ++ d :: B).drop (A.length + 1) = B := by
  rw [← List.drop_drop, List.drop_left]
  rfl

theorem dropWhile_head_false {α : Type} (p : α → Bool) :
    ∀ (l : List α) (d : α) (rest : List α), l.dropWhile p = d :: rest → p d = false := by
  intro l
  induction l with
  | nil => intro d rest h; simp [List.dropWhile] at h
  | cons x xs ih =>
      intro d rest h
      by_cases hx : p x = true
      · rw [List.dropWhile_cons_of_pos hx] at h
        exact ih d rest h
      · rw [List.dropWhile_cons_of_neg hx] at h
        cases h
        simpa using hx

/-- Splits a buffer at the position returned by `get_nearestindex`: the
leading part holds exactly the entries below the searched key, and the
first entry of the trailing part (when any) is not below it.  Holds for
every buffer, sorted or not. -/
theorem nearest_decomp (l : List NextCheck) (id : Nat) :
    ∃ T D, l = T ++ D
      ∧ get_nearestindex l id = T.length
      ∧ (∀ a ∈ T, a.itemid < id)
      ∧ (∀ d rest, D = d :: rest → ¬ d.itemid < id) := by
  refine ⟨l.takeWhile (fun r => decide (r.itemid < id)),
          l.dropWhile (fun r => decide (r.itemid < id)),
          (List.takeWhile_append_dropWhile _ _).symm, rfl, ?_, ?_⟩
  · intro a ha
    simpa using List.mem_takeWhile_imp ha
  · intro d rest hD
    have := dropWhile_head_false _ l d rest hD
    simpa using this

/-- On a sorted buffer containing an entry `e` with the searched key,
`get_nearestindex` points exactly at `e`. -/
theorem nearest_decomp_found {l : List NextCheck} {e : NextCheck} {id : Nat}
    (hs : SortedByItemid l) (he : e ∈ l) (hid : e.itemid = id) :
    ∃ T rest, l = T ++ e :: rest
      ∧ get_nearestindex l id = T.length
      ∧ (∀ a ∈ T, a.itemid < id)
      ∧ (∀ c ∈ rest, id < c.itemid) := by
  obtain ⟨T, D, hl, hi, hT, hDhead⟩ := nearest_decomp l id
  have hmem : e ∈ T ++ D := hl ▸ he
  have heD : e ∈ D := by
    rcases List.mem_append.1 hmem with h | h
    · exact absurd (hT e h) (by rw [hid]; exact lt_irrefl id)
    · exact h
  cases D with
  | nil => exact absurd heD (List.not_mem_nil e)
  | cons d rest =>
      have hPD : List.Pairwise (fun a b => a.itemid < b.itemid) (d :: rest) := by
        have : (d :: rest).Sublist l := by
          rw [hl]; exact (List.sublist_append_right T (d :: rest))
        exact hs.sublist this
      have hed : e = d := by
        rcases List.mem_cons.1 heD with h | h
        · exact h
        · exfalso
          have h1 := (List.pairwise_cons.1 hPD).1 e h
          rw [hid] at h1
          exact hDhead d rest rfl (by omega)
      subst hed
      refine ⟨T, rest, hl, hi, hT, ?_⟩
      intro c hc
      have := (List.pairwise_cons.1 hPD).1 c hc
      omega

/-- C1: last-writer-wins per check.  On an invariant-satisfying buffer
holding an entry `e` for `id`, `DCadd_nextcheck` with a strictly newer
timestamp replaces that entry in place by the new timestamp and message,
and with a same-or-older timestamp it is a complete no-op, keeping the
entry already stored. -/
theorem DCadd_last_writer_wins (st : DCState) (id : Nat) (t2 : Int) (m2 : String)
    (e : NextCheck) (hs : SortedByItemid st.nextchecks)
    (he : e ∈ st.nextchecks) (hid : e.itemid = id) :
    (e.now < t2 →
      (DCadd_nextcheck st id t2 (some m2)).1.nextchecks
        = st.nextchecks.map (fun r => if r.itemid = id then ⟨id, t2, m2⟩ else r)) ∧
    (t2 ≤ e.now → DCadd_nextcheck st id t2 (some m2) = (st, [])) := by
  obtain ⟨l, alloc⟩ := st
  simp only at hs he ⊢
  obtain ⟨T, rest, hl, hi, hT, hrest⟩ := nearest_decomp_found hs he hid
  subst hl
  have hlt : T.length < (T ++ e :: rest).length := by
    simp [List.length_append]
  constructor
  · intro hnow
    unfold DCadd_nextcheck
    simp only [hi]
    rw [dif_pos hlt, append_get_len T e rest hlt, if_pos hid, if_pos hnow]
    rw [append_take_len, append_drop_len_succ]
    simp only []
    rw [append_take_len, append_drop_len]
    rw [List.map_append, List.map_cons]
    rw [if_pos hid]
    have h1 : T.map (fun r => if r.itemid = id then (⟨id, t2, m2⟩ : NextCheck) else r) = T := by
      have hTf : ∀ a ∈ T,
          (fun r => if r.itemid = id then (⟨id, t2, m2⟩ : NextCheck) else r) a
            = (fun a => a) a := by
        intro a ha
        have := hT a ha
        simp only [if_neg (by omega : ¬ a.itemid = id)]
      rw [List.map_congr_left hTf, List.map_id']
    have h2 : rest.map (fun r => if r.itemid = id then (⟨id, t2, m2⟩ : NextCheck) else r) = rest := by
      have hRf : ∀ a ∈ rest,
          (fun r => if r.itemid = id then (⟨id, t2, m2⟩ : NextCheck) else r) a
            = (fun a => a) a := by
        intro a ha
        have := hrest a ha
        simp only [if_neg (by omega : ¬ a.itemid = id)]
      rw [List.map_congr_left hRf, List.map_id']
    rw [h1, h2]
  · intro hnow
    unfold DCadd_nextcheck
    simp only [hi]
    rw [dif_pos hlt, append_get_len T e rest hlt, if_pos hid,
      if_neg (by omega : ¬ e.now < t2)]

theorem sorted_glue {A C : List NextCheck} {x : NextCheck}
    (hA : SortedByItemid A) (hC : SortedByItemid C)
    (hAx : ∀ a ∈ A, a.itemid < x.itemid)
    (hxC : ∀ c ∈ C, x.itemid < c.itemid) :
    SortedByItemid (A ++ x :: C) := by
  rw [SortedByItemid, List.pairwise_append]
  refine ⟨hA, List.pairwise_cons.2 ⟨hxC, hC⟩, ?_⟩
  intro a ha b hb
  rcases List.mem_cons.1 hb with h | h
  · subst h; exact hAx a ha
  · exact lt_trans (hAx a ha) (hxC b h)

/-- Every `DCadd_nextcheck` call preserves the strictly-ascending buffer
invariant: the helper behind the reachability invariant of C2. -/
theorem DCadd_preserves_sorted (st : DCState) (id : Nat) (t : Int) (m : Option String)
    (hs : SortedByItemid st.nextchecks) :
    SortedByItemid (DCadd_nextcheck st id t m).1.nextchecks := by
  cases m with
  | none => exact hs
  | some msg =>
    obtain ⟨l, alloc⟩ := st
    simp only at hs ⊢
    obtain ⟨T, D, hl, hi, hT, hDhead⟩ := nearest_decomp l id
    subst hl
    have hTs : SortedByItemid T := hs.sublist (List.sublist_append_left T D)
    have hDs : SortedByItemid D := hs.sublist (List.sublist_append_right T D)
    cases D with
    | nil =>
      have hnlt : ¬ T.length < (T ++ ([] : List NextCheck)).length := by
        simp [List.length_append]
      unfold DCadd_nextcheck
      simp only [hi]
      rw [dif_neg hnlt]
      simp only []
      rw [append_take_len, append_drop_len]
      exact sorted_glue hTs (List.Pairwise.nil) (fun a ha => hT a ha)
        (fun c hc => absurd hc (List.not_mem_nil c))
    | cons d rest =>
      have hlt : T.length < (T ++ d :: rest).length := by
        simp [List.length_append]
      have hdrest : ∀ c ∈ rest, d.itemid < c.itemid :=
        (List.pairwise_cons.1 hDs).1
      have hrest_s : SortedByItemid rest := (List.pairwise_cons.1 hDs).2
      have hd_ge : ¬ d.itemid < id := hDhead d rest rfl
      unfold DCadd_nextcheck
      simp only [hi]
      rw [dif_pos hlt, append_get_len T d rest hlt]
      by_cases hdid : d.itemid = id
      · rw [if_pos hdid]
        by_cases hdnow : d.now < t
        · rw [if_pos hdnow]
          rw [append_take_len, append_drop_len_succ]
          simp only []
          rw [append_take_len, append_drop_len]
          exact sorted_glue hTs hrest_s (fun a ha => hT a ha)
            (fun c hc => show id < c.itemid by have := hdrest c hc; omega)
        · rw [if_neg hdnow]
          exact hs
      · rw [if_neg hdid]
        simp only []
        rw [append_take_len, append_drop_len]
        refine sorted_glue hTs hDs (fun a ha => hT a ha) ?_
        intro c hc
        show id < c.itemid
        rcases List.mem_cons.1 hc with h | h
        · subst h; omega
        · have := hdrest c h; omega

/-- Every state reachable by `record` and `flush` calls satisfies the
buffer invariant. -/
theorem reachable_sorted (st : DCState) (h : Reachable st) : SortedByItemid st.nextchecks := by
  induction h with
  | init => exact List.Pairwise.nil
  | add st id now msg _ ih => exact DCadd_preserves_sorted st id now msg ih
  | flush st resolver dbexec _ ih =>
      unfold DCflush_nextchecks
      by_cases hb : st.nextchecks.length = 0
      · rw [if_pos hb]; exact ih
      · rw [if_neg hb]
        exact List.Pairwise.nil

theorem triggerLoopEvents_shape (ts : List DC_TRIGGER) :
    ∀ ev ∈ triggerLoopEvents ts,
      (∃ s, ev = FlushEvent.appendStmt s) ∨ (∃ o, ev = FlushEvent.freeNewError o) := by
  induction ts with
  | nil => intro ev h; exact absurd h (List.not_mem_nil ev)
  | cons t ts ih =>
      intro ev h
      unfold triggerLoopEvents at h
      rcases List.mem_append.1 h with h1 | h1
      · left
        by_cases hok : t.sql_ok
        · rw [if_pos hok] at h1
          rcases List.mem_cons.1 h1 with h2 | h2
          · exact ⟨t.update_sql, h2⟩
          · exact absurd h2 (List.not_mem_nil ev)
        · rw [if_neg hok] at h1
          exact absurd h1 (List.not_mem_nil ev)
      · rcases List.mem_cons.1 h1 with h2 | h2
        · right; exact ⟨t.new_error, h2⟩
        · rcases ih ev h2 with h3 | h3
          · exact Or.inl h3
          · exact Or.inr h3

theorem freedErrorMsgs_loop (ts : List DC_TRIGGER) :
    freedErrorMsgs (triggerLoopEvents ts) = [] := by
  induction ts with
  | nil => rfl
  | cons t ts ih =>
      unfold triggerLoopEvents freedErrorMsgs
      rw [List.filterMap_append]
      by_cases hok : t.sql_ok
      · rw [if_pos hok]
        simpa [freedErrorMsgs, List.filterMap_cons] using ih
      · rw [if_neg hok]
        simpa [freedErrorMsgs, List.filterMap_cons] using ih

theorem executedBatches_loop (ts : List DC_TRIGGER) :
    executedBatches (triggerLoopEvents ts) = [] := by
  induction ts with
  | nil => rfl
  | cons t ts ih =>
      unfold triggerLoopEvents executedBatches
      rw [List.filterMap_append]
      by_cases hok : t.sql_ok
      · rw [if_pos hok]
        simpa [executedBatches, List.filterMap_cons] using ih
      · rw [if_neg hok]
        simpa [executedBatches, List.filterMap_cons] using ih

theorem freedErrorMsgs_clean (l : List NextCheck) :
    freedErrorMsgs (l.map (fun c => FlushEvent.freeErrorMsg c.error_msg))
      = l.map (fun c => c.error_msg) := by
  induction l with
  | nil => rfl
  | cons c l ih => simpa [freedErrorMsgs, List.filterMap_cons] using ih

theorem executedBatches_clean (l : List NextCheck) :
    executedBatches (l.map (fun c => FlushEvent.freeErrorMsg c.error_msg)) = [] := by
  induction l with
  | nil => rfl
  | cons c l _ => simp [executedBatches, List.filterMap_cons]

theorem loop_no_resolve (ts : List DC_TRIGGER) (ids : List Nat) (secs : List Int)
    (errs : List String) : FlushEvent.resolve ids secs errs ∉ triggerLoopEvents ts := by
  intro h
  rcases triggerLoopEvents_shape ts _ h with ⟨s, hs⟩ | ⟨o, ho⟩
  · exact FlushEvent.noConfusion hs
  · exact FlushEvent.noConfusion ho

theorem loop_no_freeErrorMsg (ts : List DC_TRIGGER) :
    (triggerLoopEvents ts).all (fun e => ! e.isFreeErrorMsg) = true := by
  rw [List.all_eq_true]
  intro ev h
  rcases triggerLoopEvents_shape ts ev h with ⟨s, hs⟩ | ⟨o, ho⟩
  · subst hs; rfl
  · subst ho; rfl

/-- C2: the buffer invariant is preserved by every operation.  Every
reachable state has at most one record per `checkID` and is strictly
ascending by `checkID`, and consequently the drained sequence handed to
the resolver during a flush is strictly ascending with no duplicate
`checkID`s. -/
theorem DCbuffer_invariant (st : DCState) (h : Reachable st) :
    (st.nextchecks.map (fun c => c.itemid)).Pairwise (· < ·)
      ∧ (st.nextchecks.map (fun c => c.itemid)).Nodup
      ∧ ∀ resolver dbexec ids secs errs,
          FlushEvent.resolve ids secs errs ∈ (DCflush_nextchecks resolver dbexec st).2 →
          ids.Pairwise (· < ·) := by
  have hs : SortedByItemid st.nextchecks := reachable_sorted st h
  have hp : (st.nextchecks.map (fun c => c.itemid)).Pairwise (· < ·) :=
    List.pairwise_map.2 hs
  refine ⟨hp, hp.imp (fun hlt => Nat.ne_of_lt hlt), ?_⟩
  intro resolver dbexec ids secs errs hmem
  unfold DCflush_nextchecks at hmem
  by_cases hb : st.nextchecks.length = 0
  · rw [if_pos hb] at hmem
    exact absurd hmem (List.not_mem_nil _)
  · rw [if_neg hb] at hmem
    simp only [List.mem_cons, List.mem_append] at hmem
    rcases hmem with h1 | h1 | h1
    · have : ids = st.nextchecks.map (fun c => c.itemid) := by
        injection h1 with h2 h3 h4
      rw [this]
      exact hp
    · by_cases hto : (resolver (st.nextchecks.map fun c => c.itemid)
          (st.nextchecks.map fun c => c.now) (st.nextchecks.map fun c => c.error_msg)).length ≠ 0
      · rw [if_pos hto] at h1
        rcases List.mem_append.1 h1 with h2 | h2
        · exact absurd h2 (loop_no_resolve _ _ _ _)
        · by_cases hsql : (batchStatements (resolver (st.nextchecks.map fun c => c.itemid)
              (st.nextchecks.map fun c => c.now) (st.nextchecks.map fun c => c.error_msg))).length ≠ 0
          · rw [if_pos hsql] at h2
            rcases List.mem_cons.1 h2 with h3 | h3
            · exact FlushEvent.noConfusion h3
            · exact absurd h3 (List.not_mem_nil _)
          · rw [if_neg hsql] at h2
            exact absurd h2 (List.not_mem_nil _)
      · rw [if_neg hto] at h1
        exact absurd h1 (List.not_mem_nil _)
    · exfalso
      unfold DCclean_nextchecks at h1
      simp only [List.mem_map] at h1
      obtain ⟨c, _, hc⟩ := h1
      exact FlushEvent.noConfusion hc

/-- C10: `DCadd_nextcheck` is frame-preserving for other checks.  For
every buffer state and every call, the entries whose `itemid` differs
from the recorded one are exactly the same, in the same relative order;
only the entry for the given `itemid` can be added, replaced or left
alone. -/
theorem DCadd_frame_other_checks (st : DCState) (id : Nat) (t : Int) (m : Option String) :
    (DCadd_nextcheck st id t m).1.nextchecks.filter (fun r => decide (r.itemid ≠ id))
      = st.nextchecks.filter (fun r => decide (r.itemid ≠ id)) := by
  cases m with
  | none => rfl
  | some msg =>
    obtain ⟨l, alloc⟩ := st
    simp only
    obtain ⟨T, D, hl, hi, hT, hDhead⟩ := nearest_decomp l id
    subst hl
    cases D with
    | nil =>
      have hnlt : ¬ T.length < (T ++ ([] : List NextCheck)).length := by
        simp [List.length_append]
      unfold DCadd_nextcheck
      simp only [hi]
      rw [dif_neg hnlt]
      simp only
      rw [append_take_len, append_drop_len]
      rw [List.filter_append, List.filter_append, List.filter_cons]
      simp
    | cons d rest =>
      have hlt : T.length < (T ++ d :: rest).length := by
        simp [List.length_append]
      unfold DCadd_nextcheck
      simp only [hi]
      rw [dif_pos hlt, append_get_len T d rest hlt]
      by_cases hdid : d.itemid = id
      · rw [if_pos hdid]
        by_cases hdnow : d.now < t
        · rw [if_pos hdnow]
          rw [append_take_len, append_drop_len_succ]
          simp only
          rw [append_take_len, append_drop_len]
          rw [List.filter_append, List.filter_append, List.filter_cons, List.filter_cons]
          simp [hdid]
        · rw [if_neg hdnow]
      · rw [if_neg hdid]
        simp only
        rw [append_take_len, append_drop_len]
        rw [List.filter_append, List.filter_append, List.filter_cons]
        simp

/-- C5 (amended): when `DCadd_nextcheck` inserts an entry for a new
`checkID`, the capacity grows by the fixed batch of 64 slots exactly
when the backing storage is full (`nextcheck_alloc = nextcheck_num`),
and is left unchanged otherwise: batch growth, additive rather than
multiplicative, and only when full. -/
theorem DCadd_batch_growth (st : DCState) (id : Nat) (t : Int) (m : String)
    (hnew : ∀ e ∈ st.nextchecks, e.itemid ≠ id) :
    (DCadd_nextcheck st id t (some m)).1.nextcheck_alloc
      = (if st.nextcheck_alloc = st.nextchecks.length
          then st.nextcheck_alloc + 64 else st.nextcheck_alloc)
      ∧ (DCadd_nextcheck st id t (some m)).1.nextchecks.length
          = st.nextchecks.length + 1 := by
  obtain ⟨l, alloc⟩ := st
  simp only at hnew ⊢
  have hle : get_nearestindex l id ≤ l.length := by
    rw [get_nearestindex]
    exact (List.takeWhile_sublist _).length_le
  simp only [DCadd_nextcheck]
  by_cases hlt : get_nearestindex l id < l.length
  · rw [dif_pos hlt, if_neg (hnew _ (List.get_mem l _ hlt))]
    simp only
    constructor
    · trivial
    · simp only [List.length_append, List.length_cons, List.length_take, List.length_drop]
      omega
  · rw [dif_neg hlt]
    simp only
    constructor
    · trivial
    · simp only [List.length_append, List.length_cons, List.length_take, List.length_drop]
      omega

theorem executedBatches_append (a b : List FlushEvent) :
    executedBatches (a ++ b) = executedBatches a ++ executedBatches b :=
  List.filterMap_append a b _

theorem executedBatches_cons_resolve (ids : List Nat) (secs : List Int) (errs : List String)
    (evs : List FlushEvent) :
    executedBatches (FlushEvent.resolve ids secs errs :: evs) = executedBatches evs := by
  unfold executedBatches
  rw [List.filterMap_cons]

theorem executedBatches_single_execute (sql : List String) (ok : Bool) :
    executedBatches [FlushEvent.execute sql ok] = [sql] := rfl

theorem freedErrorMsgs_append (a b : List FlushEvent) :
    freedErrorMsgs (a ++ b) = freedErrorMsgs a ++ freedErrorMsgs b :=
  List.filterMap_append a b _

theorem freedErrorMsgs_cons_resolve (ids : List Nat) (secs : List Int) (errs : List String)
    (evs : List FlushEvent) :
    freedErrorMsgs (FlushEvent.resolve ids secs errs :: evs) = freedErrorMsgs evs := by
  unfold freedErrorMsgs
  rw [List.filterMap_cons]

theorem freedErrorMsgs_single_execute (sql : List String) (ok : Bool) :
    freedErrorMsgs [FlushEvent.execute sql ok] = [] := rfl

/-- C6: flush is a no-op on an empty buffer.  With zero pending records
`DCflush_nextchecks` returns at once: the state is untouched and the
trace is empty, so no resolver call, no store call and no free is
performed. -/
theorem DCflush_empty_noop (resolver : List Nat → List Int → List String → List DC_TRIGGER)
    (dbexec : List String → Bool) (st : DCState) (h : st.nextchecks = []) :
    DCflush_nextchecks resolver dbexec st = (st, []) := by
  unfold DCflush_nextchecks
  rw [h]
  rfl

/-- C7: submit-iff-nonempty batch.  In a flush on a non-empty buffer in
which the resolver returns a non-empty trigger list, the batch is
submitted to the store exactly when at least one real state-update
statement was appended, and the submitted batch consists of exactly the
appended statements: triggers whose statement build is a no-op do not by
themselves cause a submission, and one appended statement suffices. -/
theorem DCflush_submit_iff_statement
    (resolver : List Nat → List Int → List String → List DC_TRIGGER)
    (dbexec : List String → Bool) (st : DCState)
    (hbuf : st.nextchecks.length ≠ 0)
    (hres : (resolvedTriggers resolver st).length ≠ 0) :
    executedBatches (DCflush_nextchecks resolver dbexec st).2
        = (if (batchStatements (resolvedTriggers resolver st)).length ≠ 0
            then [batchStatements (resolvedTriggers resolver st)] else [])
      ∧ (executedBatches (DCflush_nextchecks resolver dbexec st).2 ≠ []
          ↔ batchStatements (resolvedTriggers resolver st) ≠ []) := by
  have hmain : executedBatches (DCflush_nextchecks resolver dbexec st).2
      = (if (batchStatements (resolvedTriggers resolver st)).length ≠ 0
          then [batchStatements (resolvedTriggers resolver st)] else []) := by
    unfold DCflush_nextchecks
    rw [if_neg hbuf]
    simp only
    unfold DCclean_nextchecks
    simp only
    have hrw : (resolver (st.nextchecks.map fun c => c.itemid)
        (st.nextchecks.map fun c => c.now) (st.nextchecks.map fun c => c.error_msg))
        = resolvedTriggers resolver st := rfl
    rw [hrw, if_pos hres]
    rw [executedBatches_cons_resolve, executedBatches_append, executedBatches_append,
      executedBatches_loop, executedBatches_clean]
    by_cases hsql : (batchStatements (resolvedTriggers resolver st)).length ≠ 0
    · rw [if_pos hsql, if_pos hsql, executedBatches_single_execute]
      simp
    · rw [if_neg hsql, if_neg hsql]
      rfl
  refine ⟨hmain, ?_⟩
  rw [hmain]
  by_cases hsql : (batchStatements (resolvedTriggers resolver st)).length ≠ 0
  · rw [if_pos hsql]
    constructor
    · intro _
      exact fun hc => hsql (by rw [hc]; rfl)
    · intro _
      simp
  · rw [if_neg hsql]
    constructor
    · intro hc
      exact absurd rfl hc
    · intro hc
      exact absurd (List.length_eq_zero.1 (by omega)) hc

/-- C8: the buffer is clean after every flush regardless of outcome.
For every flush the returned state has an empty buffer, every drained
record message is released during the flush, and the resulting state
does not depend on the submission outcome `dbexec`: a failed submission
loses only that batch and leaves no record behind. -/
theorem DCflush_buffer_clean
    (resolver : List Nat → List Int → List String → List DC_TRIGGER)
    (dbexec dbexec2 : List String → Bool) (st : DCState) :
    (DCflush_nextchecks resolver dbexec st).1.nextchecks = []
      ∧ freedErrorMsgs (DCflush_nextchecks resolver dbexec st).2
          = st.nextchecks.map (fun c => c.error_msg)
      ∧ (DCflush_nextchecks resolver dbexec st).1
          = (DCflush_nextchecks resolver dbexec2 st).1 := by
  unfold DCflush_nextchecks
  by_cases hb : st.nextchecks.length = 0
  · rw [if_pos hb, if_pos hb]
    have h0 : st.nextchecks = [] := List.length_eq_zero.1 hb
    refine ⟨h0, ?_, rfl⟩
    rw [h0]
    rfl
  · rw [if_neg hb, if_neg hb]
    simp only
    unfold DCclean_nextchecks
    simp only
    refine ⟨by trivial, ?_, by trivial⟩
    rw [freedErrorMsgs_cons_resolve, freedErrorMsgs_append]
    rw [freedErrorMsgs_clean st.nextchecks]
    by_cases hto : (resolver (st.nextchecks.map fun c => c.itemid)
        (st.nextchecks.map fun c => c.now) (st.nextchecks.map fun c => c.error_msg)).length ≠ 0
    · rw [if_pos hto, freedErrorMsgs_append, freedErrorMsgs_loop]
      by_cases hsql : (batchStatements (resolver (st.nextchecks.map fun c => c.itemid)
          (st.nextchecks.map fun c => c.now) (st.nextchecks.map fun c => c.error_msg))).length ≠ 0
      · rw [if_pos hsql, freedErrorMsgs_single_execute]
        rfl
      · rw [if_neg hsql]
        rfl
    · rw [if_neg hto]
      rfl

/-- C9 (amended): the drained error-message buffers are each freed
exactly once per flush, but by the cleanup pass at the end of the flush,
after the batch is built and submitted — not immediately after the
resolver call.  The trace decomposes into a part containing no
error-message free, followed by exactly one free per drained record in
buffer order. -/
theorem DCflush_error_frees_last
    (resolver : List Nat → List Int → List String → List DC_TRIGGER)
    (dbexec : List String → Bool) (st : DCState) :
    ∃ pre, (DCflush_nextchecks resolver dbexec st).2
        = pre ++ st.nextchecks.map (fun c => FlushEvent.freeErrorMsg c.error_msg)
      ∧ pre.all (fun e => ! e.isFreeErrorMsg) = true := by
  unfold DCflush_nextchecks
  by_cases hb : st.nextchecks.length = 0
  · rw [if_pos hb]
    refine ⟨[], ?_, rfl⟩
    rw [List.length_eq_zero.1 hb]
    rfl
  · rw [if_neg hb]
    simp only
    unfold DCclean_nextchecks
    simp only
    have hrw : (resolver (st.nextchecks.map fun c => c.itemid)
        (st.nextchecks.map fun c => c.now) (st.nextchecks.map fun c => c.error_msg))
        = resolvedTriggers resolver st := rfl
    rw [hrw]
    by_cases hto : (resolvedTriggers resolver st).length ≠ 0
    · rw [if_pos hto]
      by_cases hsql : (batchStatements (resolvedTriggers resolver st)).length ≠ 0
      · rw [if_pos hsql]
        refine ⟨FlushEvent.resolve (st.nextchecks.map fun c => c.itemid)
            (st.nextchecks.map fun c => c.now) (st.nextchecks.map fun c => c.error_msg) ::
            (triggerLoopEvents (resolvedTriggers resolver st)
              ++ [FlushEvent.execute (batchStatements (resolvedTriggers resolver st))
                    (dbexec (batchStatements (resolvedTriggers resolver st)))]),
          by rw [List.cons_append], ?_⟩
        rw [List.all_cons, List.all_append, loop_no_freeErrorMsg]
        rfl
      · rw [if_neg hsql]
        refine ⟨FlushEvent.resolve (st.nextchecks.map fun c => c.itemid)
            (st.nextchecks.map fun c => c.now) (st.nextchecks.map fun c => c.error_msg) ::
            (triggerLoopEvents (resolvedTriggers resolver st) ++ []),
          by rw [List.cons_append], ?_⟩
        rw [List.all_cons, List.all_append, loop_no_freeErrorMsg]
        rfl
    · rw [if_neg hto]
      refine ⟨[FlushEvent.resolve (st.nextchecks.map fun c => c.itemid)
          (st.nextchecks.map fun c => c.now) (st.nextchecks.map fun c => c.error_msg)],
        ?_, rfl⟩
      simp

/-- C3 (amended): only an absent message — a NULL `error_msg` pointer —
makes `DCadd_nextcheck` a silent no-op: the state is returned untouched
and nothing is freed. -/
theorem DCadd_null_message_noop (st : DCState) (itemid : Nat) (now : Int) :
    DCadd_nextcheck st itemid now none = (st, []) := rfl

/-- C3 (counterexample): a present-but-empty message is not a no-op.
Recording `(5, 7, "")` into the empty buffer changes the buffer, which
afterwards holds the entry with the empty message text. -/
theorem DCadd_empty_message_recorded :
    (DCadd_nextcheck initialDCState 5 7 (some "")).1 ≠ initialDCState
      ∧ (DCadd_nextcheck initialDCState 5 7 (some "")).1.nextchecks = [⟨5, 7, ""⟩] := by
  decide

/-- C4: evaluation of the replacement path at the failing input.  With
the buffer holding `(1, 5, "a")`, the call `record(1, 6, "b")` replaces
the entry, yet the call performs no `zbx_free` at all (second component
`[]`), and the message `"a"` — owned by the buffer before the call — is
gone from the buffer afterwards: the allocation behind it is leaked,
contradicting the release the spec requires. -/
theorem DCadd_replacement_leaks_message :
    (DCadd_nextcheck oneRecordState 1 6 (some "b")).2 = []
      ∧ (DCadd_nextcheck oneRecordState 1 6 (some "b")).1.nextchecks = [⟨1, 6, "b"⟩]
      ∧ "a" ∈ oneRecordState.nextchecks.map (fun c => c.error_msg)
      ∧ "a" ∉ (DCadd_nextcheck oneRecordState 1 6 (some "b")).1.nextchecks.map
          (fun c => c.error_msg) := by
  decide

set_option maxRecDepth 4000 in
/-- C5 (counterexample): growth is not geometric.  Inserting into a full
buffer of 64 entries grows the capacity to 128, and into a full buffer
of 128 entries to 192; no single ratio `p/q` satisfies both growth
steps, so the growth is not multiplicative. -/
theorem DCadd_growth_not_geometric :
    (DCadd_nextcheck ⟨rangeBuf 64, 64⟩ 1000 0 (some "x")).1.nextcheck_alloc = 128
      ∧ (DCadd_nextcheck ⟨rangeBuf 128, 128⟩ 1000 0 (some "x")).1.nextcheck_alloc = 192
      ∧ ∀ p q : Nat, 0 < q → ¬(128 * q = 64 * p ∧ 192 * q = 128 * p) := by
  refine ⟨by decide, by decide, ?_⟩
  intro p q hq h
  omega

/-- C9 (counterexample): in a concrete flush of one record resolving to
one trigger whose statement is appended, the release of the drained
error message happens after the batch submission, so the trace violates
the claimed free-before-submit ordering. -/
theorem DCflush_frees_after_submit_cex :
    errorFreesBeforeExecutes
        (DCflush_nextchecks oneTriggerResolver (fun _ => true) oneRecordState).2 = false
      ∧ (DCflush_nextchecks oneTriggerResolver (fun _ => true) oneRecordState).2
        = [FlushEvent.resolve [1] [5] ["a"], FlushEvent.appendStmt "u",
           FlushEvent.freeNewError none, FlushEvent.execute ["u"] true,
           FlushEvent.freeErrorMsg "a"] := by
  decide

/-- C1 (witness): the last-writer-wins theorem applied to the concrete
buffer `[(1, 5, "a")]` and the call `record(1, 7, "b")`. -/
theorem DCadd_last_writer_wins_check :
    ((⟨1, 5, "a"⟩ : NextCheck).now < 7 →
      (DCadd_nextcheck oneRecordState 1 7 (some "b")).1.nextchecks
        = oneRecordState.nextchecks.map
            (fun r => if r.itemid = 1 then ⟨1, 7, "b"⟩ else r))
    ∧ (7 ≤ (⟨1, 5, "a"⟩ : NextCheck).now →
      DCadd_nextcheck oneRecordState 1 7 (some "b") = (oneRecordState, [])) :=
  DCadd_last_writer_wins oneRecordState 1 7 "b" ⟨1, 5, "a"⟩
    (by simp [SortedByItemid, oneRecordState]) (by simp [oneRecordState]) rfl

/-- C2 (witness): the buffer invariant theorem applied to the state
reached by recording `(3, 6, "b")` and then `(1, 5, "a")` from the
initial state. -/
theorem DCbuffer_invariant_check :
    (((DCadd_nextcheck (DCadd_nextcheck initialDCState 3 6 (some "b")).1
          1 5 (some "a")).1.nextchecks.map (fun c => c.itemid)).Pairwise (· < ·)
      ∧ ((DCadd_nextcheck (DCadd_nextcheck initialDCState 3 6 (some "b")).1
          1 5 (some "a")).1.nextchecks.map (fun c => c.itemid)).Nodup
      ∧ ∀ resolver dbexec ids secs errs,
          FlushEvent.resolve ids secs errs ∈
            (DCflush_nextchecks resolver dbexec
              (DCadd_nextcheck (DCadd_nextcheck initialDCState 3 6 (some "b")).1
                1 5 (some "a")).1).2 →
          ids.Pairwise (· < ·)) :=
  DCbuffer_invariant _
    (Reachable.add _ 1 5 (some "a") (Reachable.add _ 3 6 (some "b") Reachable.init))

/-- C5 (witness): the batch-growth theorem applied to the first insert
into the initial state, which is full (capacity 0 = count 0) and grows
to capacity 64. -/
theorem DCadd_batch_growth_check :
    ((DCadd_nextcheck initialDCState 5 3 (some "m")).1.nextcheck_alloc
        = (if initialDCState.nextcheck_alloc = initialDCState.nextchecks.length
            then initialDCState.nextcheck_alloc + 64 else initialDCState.nextcheck_alloc))
      ∧ (DCadd_nextcheck initialDCState 5 3 (some "m")).1.nextchecks.length
        = initialDCState.nextchecks.length + 1 :=
  DCadd_batch_growth initialDCState 5 3 "m" (by simp [initialDCState])

/-- C6 (witness): the empty-buffer no-op theorem applied to the initial
state with concrete collaborators. -/
theorem DCflush_empty_noop_check :
    DCflush_nextchecks (fun _ _ _ => []) (fun _ => false) initialDCState
      = (initialDCState, []) :=
  DCflush_empty_noop (fun _ _ _ => []) (fun _ => false) initialDCState rfl

/-- C7 (witness): the submit-iff-statement theorem applied to one
record resolving to two triggers of which exactly one builds a
statement; exactly the batch `[["u10"]]` is submitted. -/
theorem DCflush_submit_iff_statement_check :
    (executedBatches (DCflush_nextchecks twoTriggerResolver (fun _ => true) oneRecordState).2
        = (if (batchStatements (resolvedTriggers twoTriggerResolver oneRecordState)).length ≠ 0
            then [batchStatements (resolvedTriggers twoTriggerResolver oneRecordState)] else [])
      ∧ (executedBatches
            (DCflush_nextchecks twoTriggerResolver (fun _ => true) oneRecordState).2 ≠ []
          ↔ batchStatements (resolvedTriggers twoTriggerResolver oneRecordState) ≠ [])) :=
  DCflush_submit_iff_statement twoTriggerResolver (fun _ => true) oneRecordState
    (by decide) (by decide)
